import Mathlib

/-!
Verification development for the `toolkit` Go package.

The definitions below are a shallow embedding of the repository's source:

* `Tools`, `randomStrSource`, `charIndex`, `RandomString`, `Slugify`
  embed `tools.go` (and the `randomStrSource` constant of `upload_tools.go`);
* `FileHeader`, `buff512`, `equalFold`, `allowedCheck`, `processPart`,
  `uploadLoop`, `UploadFiles` embed the upload pipeline of `upload_tools.go`;
* `JItem`, `decodeOne`, `ReadJSON`, `headerAssign`, `canonicalMIMEHeaderKey`,
  `headerSet`, `WriteJSON` embed `json.go`.

Machine integers are modelled as `Nat`/`Int` with explicit truncation
(`% 2 ^ 64` for `big.Int.Uint64`).  Effectful operations (the HTTP request,
`http.DetectContentType`, the random source, the file system) are modelled by
explicit parameters and by per-part failure flags, and the acquisition and
release of file handles is recorded in an explicit event trace that mirrors
the `defer` statements of the Go code (a deferred method call evaluates its
receiver at the point of the `defer` statement, per the Go specification).
-/

namespace Toolkit

/-- The `Tools` configuration struct of `tools.go`.  Go `int` fields are
modelled as `Int`. -/
structure Tools where
  MaxFileSize : Int
  AllowedFileTypes : List String
  MaxJSONSize : Int
  AllowUnknownFields : Bool
deriving Repr, DecidableEq

/-- The constant `randomStrSource` of `upload_tools.go`, the alphabet used by
`RandomString`. -/
def randomStrSource : String :=
  "abcdefghijklmnopqrstuvwxyzABCDEFGHIJKLMNOPQRSTUVWXYZ0123456789!=+"

/-- `big.Int.Uint64` applied to a non-negative big integer: the low 64 bits.
In `RandomString` it is applied to a 65-bit prime, which does not fit in a
`uint64`, so the value is truncated. -/
def uint64Of (p : Nat) : Nat := p % 2 ^ 64

/-- The index computation of `RandomString` in `tools.go`:
`x, y := p.Uint64(), uint64(len(r))` followed by `r[x%y]`, where
`r = []rune(randomStrSource)` (65 runes). -/
def charIndex (p : Nat) : Nat := uint64Of p % randomStrSource.toList.length

/-- `RandomString` of `tools.go`.  The call `rand.Prime(rand.Reader, len(r))`
made at loop iteration `i` is modelled by the oracle `primeAt i`: a 65-bit
prime drawn from the cryptographically secure source (its error is discarded
by the Go code).  Each output character is `r[x%y]` for `x = p.Uint64()`. -/
def RandomString (primeAt : Nat → Nat) (n : Nat) : String :=
  String.mk ((List.range n).map fun i =>
    randomStrSource.toList.get
      ⟨charIndex (primeAt i), Nat.mod_lt _ (by decide)⟩)

/-- The character class of the regular expression `[a-z\d]` used by `Slugify`
(`tools.go`): ASCII lowercase letters and digits. -/
def isSlugChar (c : Char) : Bool :=
  ('a' ≤ c && c ≤ 'z') || ('0' ≤ c && c ≤ '9')

/-- `strings.Trim(s, cutset)` for a one-character cutset: remove all leading
and trailing occurrences of `x`. -/
def trimChar (x : Char) (l : List Char) : List Char :=
  ((l.dropWhile (· == x)).reverse.dropWhile (· == x)).reverse

/-- The action of `regex.ReplaceAllString(s, "-")` for the pattern
`[^a-z\d]+`: every maximal run of characters outside `[a-z0-9]` is replaced
by a single hyphen.  The flag records whether the previous character belonged
to such a run (so the run contributes only one hyphen). -/
def collapseRunsAux : Bool → List Char → List Char
  | _, [] => []
  | inRun, c :: rest =>
    if isSlugChar c then c :: collapseRunsAux false rest
    else if inRun then collapseRunsAux true rest
    else '-' :: collapseRunsAux true rest

/-- `regex.ReplaceAllString(strings.ToLower(trimmed), "-")` for
`[^a-z\d]+`. -/
def replaceRuns (l : List Char) : List Char := collapseRunsAux false l

/-- `Slugify` of `tools.go`.  `strings.ToLower` is modelled per character by
`Char.toLower` (they agree on ASCII; any character still outside `[a-z0-9]`
after lowering is replaced by a hyphen either way). -/
def Slugify (str : String) : Except String String :=
  let trimmmed := trimChar ' ' str.toList
  if trimmmed.length = 0 then .error "empty string not permitted"
  else
    let slug := trimChar '-' (replaceRuns (trimmmed.map Char.toLower))
    if slug.length = 0 then .error "resultant string is empty"
    else .ok (String.mk slug)

/-- The `UploadedFile` struct of `upload_tools.go`.  `FileSize` is the byte
count returned by `io.Copy`. -/
structure UploadedFile where
  NewFileName : String
  OriginalFileName : String
  FileSize : Nat
deriving Repr, DecidableEq

/-- One multipart file part (`*multipart.FileHeader`), together with the
failure behaviour of the effectful operations performed on it: `openFails`
models an error from `hdr.Open()`, `seekFails` from `infile.Seek(0, 0)`,
`createFails` from `os.Create`, and `copyFails` from `io.Copy`.
`content` is the byte stream of the part; reading from a nonempty part
returns bytes with no error, reading from an empty part returns `io.EOF`. -/
structure FileHeader where
  Filename : String
  content : List Nat
  openFails : Bool
  seekFails : Bool
  createFails : Bool
  copyFails : Bool
deriving Repr, DecidableEq

/-- The buffer passed to `http.DetectContentType` in `UploadFiles`:
`buff := make([]byte, 512)` is zero-initialised and `infile.Read(buff)`
fills its first `min 512 content.length` bytes, the byte count being
discarded (`_, err = infile.Read(buff)`).  The whole 512-byte buffer,
zero padding included, is then passed to the sniffer. -/
def buff512 (content : List Nat) : List Nat :=
  content.take 512 ++ List.replicate (512 - (content.take 512).length) 0

/-- `strings.EqualFold` restricted to the ASCII case folding used by MIME
type strings: case-insensitive equality, character by character. -/
def equalFold (a b : String) : Bool :=
  a.toList.map Char.toLower == b.toList.map Char.toLower

/-- The allow-list check of `UploadFiles`: when `AllowedFileTypes` is
nonempty, `allowed` becomes true exactly when some entry matches the detected
type under `strings.EqualFold`; when it is empty, every type is allowed. -/
def allowedCheck (t : Tools) (fileType : String) : Bool :=
  if t.AllowedFileTypes.length > 0 then
    t.AllowedFileTypes.any fun f => equalFold fileType f
  else true

/-- `filepath.Ext`: the suffix of the name starting at its final dot
(before any slash), or the empty string when there is none. -/
def fileExt (name : String) : String :=
  let r := name.toList.reverse
  match r.dropWhile (fun c => !(c == '.' || c == '/')) with
  | '.' :: _ =>
    String.mk ('.' :: (r.takeWhile (fun c => !(c == '.' || c == '/'))).reverse)
  | _ => ""

/-- Handle events recorded while processing one part.  `closeNil` is the run
of the deferred call `outfile.Close()` registered by
`var outfile *os.File; defer outfile.Close()`: per the Go specification the
receiver is evaluated when the `defer` statement executes, so this deferred
call closes the nil handle, not the file later assigned to `outfile`. -/
inductive HEvent
  | openIn
  | closeIn
  | createOut
  | closeOut
  | closeNil
deriving Repr, DecidableEq

/-- The errors produced inside `UploadFiles`. -/
inductive UploadErr
  | tooBig
  | openErr
  | readErr
  | unsupportedType
  | seekErr
  | createErr
  | copyErr
deriving Repr, DecidableEq

/-- Result of the upload pipeline: the returned slice (Go `nil` is the empty
list), the returned error, and the trace of handle events. -/
structure UploadResult where
  files : List UploadedFile
  err : Option UploadErr
  trace : List HEvent
deriving Repr, DecidableEq

/-- The per-part closure of `UploadFiles` (`upload_tools.go`).  `detect`
stands for `http.DetectContentType` and `randName` for the
`t.RandomString(25)` call.  Every error path returns `nil` for the file
slice, exactly as each `return nil, err` in the source does; the success
path appends to the captured outer slice `acc` and returns it.  The trace
lists handle events in execution order; the deferred calls run last, in
last-in-first-out order. -/
def processPart (detect : List Nat → String) (t : Tools) (renameFile : Bool)
    (randName : String) (hdr : FileHeader) (acc : List UploadedFile) :
    UploadResult :=
  if hdr.openFails then ⟨[], some .openErr, []⟩
  else if hdr.content.isEmpty then ⟨[], some .readErr, [.openIn, .closeIn]⟩
  else
    let fileType := detect (buff512 hdr.content)
    if !allowedCheck t fileType then
      ⟨[], some .unsupportedType, [.openIn, .closeIn]⟩
    else if hdr.seekFails then ⟨[], some .seekErr, [.openIn, .closeIn]⟩
    else
      let newName :=
        if renameFile then randName ++ fileExt hdr.Filename else hdr.Filename
      if hdr.createFails then
        ⟨[], some .createErr, [.openIn, .closeNil, .closeIn]⟩
      else if hdr.copyFails then
        ⟨[], some .copyErr, [.openIn, .createOut, .closeNil, .closeIn]⟩
      else
        ⟨acc ++ [⟨newName, hdr.Filename, hdr.content.length⟩], none,
          [.openIn, .createOut, .closeNil, .closeIn]⟩

/-- The loop of `UploadFiles` over the parts of the form.  After each part
the outer `uploadedFiles` slice is overwritten with the closure's first
return value; on a non-nil error the function returns that slice at once
(`return uploadedFiles, err`) without touching the remaining parts. -/
def uploadLoop (detect : List Nat → String) (randName : Nat → String)
    (t : Tools) (renameFile : Bool) :
    List FileHeader → Nat → List UploadedFile → UploadResult
  | [], _, acc => ⟨acc, none, []⟩
  | hdr :: rest, i, acc =>
    let r := processPart detect t renameFile (randName i) hdr acc
    match r.err with
    | some e => ⟨r.files, some e, r.trace⟩
    | none =>
      let r2 := uploadLoop detect randName t renameFile rest (i + 1) r.files
      ⟨r2.files, r2.err, r.trace ++ r2.trace⟩

/-- `UploadFiles` of `upload_tools.go`.  `parseFails` models an error from
`r.ParseMultipartForm` (oversized body), `parts` the file parts of the
multipart form, `rename` the variadic parameter.  The returned `Tools` value
records the state of the configuration struct after the call: when
`MaxFileSize` is zero the function assigns the 1 GiB default to the field
itself (`t.MaxFileSize = 1024 * 1024 * 1024`) before parsing. -/
def UploadFiles (detect : List Nat → String) (randName : Nat → String)
    (parseFails : Bool) (t : Tools) (parts : List FileHeader)
    (rename : List Bool) : Tools × UploadResult :=
  let renameFile := rename.headD true
  let t1 :=
    if t.MaxFileSize = 0 then { t with MaxFileSize := 1024 * 1024 * 1024 }
    else t
  (t1,
    if parseFails then ⟨[], some .tooBig, []⟩
    else uploadLoop detect randName t1 renameFile parts 0 [])

/-- One item of the JSON request body as seen by `json.Decoder`: a JSON
value (with a flag telling whether decoding it into the caller's target
succeeds, i.e. no unknown-field or type error), or malformed input. -/
inductive JItem
  | value (decodesClean : Bool)
  | garbage
deriving Repr, DecidableEq

/-- The classified errors of `ReadJSON` (`json.go`). -/
inductive JError
  | emptyBody
  | badJSON
  | badTarget
  | multipleJSONValues
deriving Repr, DecidableEq

/-- Outcome of one `Decode` call of `json.Decoder`: `io.EOF` at end of
stream, success with the rest of the stream, a syntax error on malformed
input, or an unmarshalling error (unknown field, type mismatch). -/
inductive DecResult
  | eof
  | ok (rest : List JItem)
  | errSyntax
  | errTarget
deriving Repr, DecidableEq

/-- One `decodedBody.Decode(...)` call on the remaining body. -/
def decodeOne : List JItem → DecResult
  | [] => .eof
  | .garbage :: _ => .errSyntax
  | .value true :: rest => .ok rest
  | .value false :: _ => .errTarget

/-- `ReadJSON` of `json.go`.  The byte limit `maxBytes` is computed into a
local variable (the default 1 MiB is not written back to `t`), the body is
decoded once into the caller's target with the error classified, and then
`Decode(&struct{}{})` is attempted once more: any outcome other than
`io.EOF` yields the error `"body must contain only one JSON value"`.
The first component of the result is the configuration struct after the
call; no field of `t` is assigned anywhere in the function body. -/
def ReadJSON (t : Tools) (body : List JItem) : Tools × Option JError :=
  (t,
    match decodeOne body with
    | .eof => some .emptyBody
    | .errSyntax => some .badJSON
    | .errTarget => some .badTarget
    | .ok rest =>
      match decodeOne rest with
      | .eof => none
      | _ => some .multipleJSONValues)

/-- An `http.Header`: for each key the list of values.  The first binding of
a key in the list is its current value. -/
abbrev Header := List (String × List String)

/-- The Go map assignment `w.Header()[indx] = hdr` used by `WriteJSON` for
caller-supplied headers: the key is bound as given, with no
canonicalisation. -/
def headerAssign (m : Header) (k : String) (v : List String) : Header :=
  (k, v) :: m.filter fun p => p.fst != k

/-- `textproto.CanonicalMIMEHeaderKey` on a valid token: the first letter
and every letter following a hyphen are upper-cased, the rest lower-cased.
`WriteJSON` applies it only to the literal key `"Content-Type"`. -/
def canonicalKeyAux : Bool → List Char → List Char
  | _, [] => []
  | upper, c :: rest =>
    (if upper then c.toUpper else c.toLower) :: canonicalKeyAux (c == '-') rest

/-- See `canonicalKeyAux`. -/
def canonicalMIMEHeaderKey (s : String) : String :=
  String.mk (canonicalKeyAux true s.toList)

/-- `http.Header.Set`: canonicalise the key and bind it to the one-element
value list. -/
def headerSet (m : Header) (k v : String) : Header :=
  headerAssign m (canonicalMIMEHeaderKey k) [v]

/-- Current value of a key in a `Header`. -/
def headerGet (m : Header) (k : String) : Option (List String) := m.lookup k

/-- `WriteJSON` of `json.go`, acting on the response header map `m`.
`marshalOk` models `json.Marshal` succeeding: on failure the function
returns the error before touching the response.  Otherwise the
caller-supplied headers (first variadic element, if any) are applied by map
assignment, and only then is `Content-Type: application/json` set. -/
def WriteJSON (t : Tools) (marshalOk : Bool) (m : Header)
    (headers : List Header) : Except Unit Header :=
  if !marshalOk then .error ()
  else
    let m1 :=
      match headers with
      | [] => m
      | h :: _ => h.foldl (fun acc p => headerAssign acc p.fst p.snd) m
    .ok (headerSet m1 "Content-Type" "application/json")

/-- A `http.DetectContentType` oracle for the concrete runs below: a buffer
starting with the PNG magic byte `0x89` sniffs as `image/png`, anything
else as `text/plain`. -/
def detectDemo : List Nat → String :=
  fun b => if b.headD 0 = 137 then "image/png" else "text/plain"

/-- A configuration allowing only `image/png`. -/
def toolsDemo : Tools :=
  { MaxFileSize := 100, AllowedFileTypes := ["image/png"], MaxJSONSize := 0,
    AllowUnknownFields := false }

/-- A configuration with every field at its zero value. -/
def toolsZero : Tools :=
  { MaxFileSize := 0, AllowedFileTypes := [], MaxJSONSize := 0,
    AllowUnknownFields := false }

/-- A part whose content sniffs as `image/png` under `detectDemo` and whose
effectful operations all succeed. -/
def goodPart : FileHeader :=
  { Filename := "a.png", content := [137, 80], openFails := false,
    seekFails := false, createFails := false, copyFails := false }

/-- A part whose content sniffs as `text/plain` under `detectDemo`. -/
def badPart : FileHeader :=
  { Filename := "b.txt", content := [104, 105], openFails := false,
    seekFails := false, createFails := false, copyFails := false }

/-- A part with an empty byte stream: `infile.Read` returns `io.EOF`. -/
def emptyPart : FileHeader :=
  { Filename := "empty.txt", content := [], openFails := false,
    seekFails := false, createFails := false, copyFails := false }

/-! ## Theorems -/

/-- The alphabet `randomStrSource` has 65 runes. -/
theorem randomStrSource_toList_length : randomStrSource.toList.length = 65 := by
  decide

/-- Every prime at least `2 ^ 64` is divisible by neither 5 nor 13. -/
theorem prime_large_not_div_five_thirteen (p : Nat) (hp : Nat.Prime p)
    (h1 : 2 ^ 64 ≤ p) : p % 5 ≠ 0 ∧ p % 13 ≠ 0 := by
  constructor
  · intro h
    rcases hp.eq_one_or_self_of_dvd 5 (Nat.dvd_of_mod_eq_zero h) with h5 | h5
    · omega
    · omega
  · intro h
    rcases hp.eq_one_or_self_of_dvd 13 (Nat.dvd_of_mod_eq_zero h) with h13 | h13
    · omega
    · omega

/-- C4: the claim that the character-selection step of `RandomString` is free
of modulo bias and makes every alphabet character selectable is refuted.
`rand.Prime(rand.Reader, 65)` yields a 65-bit prime `p`; the code computes the
alphabet index as `p.Uint64() % 65`, i.e. `(p % 2 ^ 64) % 65`.  For
`2 ^ 64 ≤ p < 2 ^ 65` this equals `(p - 2 ^ 64) % 65`, and since
`2 ^ 64 ≡ 16 [MOD 65]`, index 49 would force `p ≡ 65 ≡ 0 [MOD 65]`, i.e.
`5 ∣ p` and `13 ∣ p` — impossible for a prime that large (see
`prime_large_not_div_five_thirteen`).  So the alphabet character at index 49,
the letter `X`, is never produced (the same argument excludes all 17 indices
`i` with `gcd (i + 16) 65 > 1`); the selection is far from uniform. -/
theorem randomString_unreachable_index (p : Nat) (h1 : 2 ^ 64 ≤ p)
    (h2 : p < 2 ^ 65) (h5 : p % 5 ≠ 0) (h13 : p % 13 ≠ 0) :
    charIndex p ≠ 49 ∧ randomStrSource.toList.getD 49 ' ' = 'X' := by
  refine ⟨?_, by decide⟩
  simp only [charIndex, uint64Of, randomStrSource_toList_length]
  have h : p % 2 ^ 64 = p - 2 ^ 64 := by omega
  rw [h]
  omega

/-- Witness for `randomString_unreachable_index` at the concrete source value
`2 ^ 64 + 1` (which is in the 65-bit range and divisible by neither 5 nor
13). -/
theorem randomString_unreachable_index_witness :
    2 ^ 64 ≤ 2 ^ 64 + 1 ∧ 2 ^ 64 + 1 < 2 ^ 65 ∧ (2 ^ 64 + 1) % 5 ≠ 0 ∧
      (2 ^ 64 + 1) % 13 ≠ 0 ∧
      (charIndex (2 ^ 64 + 1) ≠ 49 ∧
        randomStrSource.toList.getD 49 ' ' = 'X') :=
  ⟨by norm_num, by norm_num, by decide, by decide,
    randomString_unreachable_index (2 ^ 64 + 1) (by norm_num) (by norm_num)
      (by decide) (by decide)⟩

/-- C5 counterexample: the alphabet backing `RandomString` has 65 characters,
not 70 or more as the claim states. -/
theorem randomStrSource_not_seventy :
    randomStrSource.length = 65 ∧ ¬70 ≤ randomStrSource.length := by
  decide

/-- C5 (amended): for every random source and every `n ≥ 0`, `RandomString`
returns a string of exactly `n` characters, each drawn (with replacement)
from the fixed 65-character alphabet `randomStrSource`, which consists of the
lowercase letters, the uppercase letters, the digits, and the three
punctuation symbols `!`, `=`, `+`; `RandomString` at 0 is the empty string
(a map over `List.range 0`). -/
theorem randomString_length_alphabet (primeAt : Nat → Nat) (n : Nat) :
    (RandomString primeAt n).length = n ∧
    (∀ c ∈ (RandomString primeAt n).toList, c ∈ randomStrSource.toList) ∧
    randomStrSource.toList.length = 65 ∧
    (∀ c ∈ randomStrSource.toList,
      c.isLower ∨ c.isUpper ∨ c.isDigit ∨ c = '!' ∨ c = '=' ∨ c = '+') := by
  refine ⟨?_, ?_, randomStrSource_toList_length, by decide⟩
  · show ((List.range n).map _).length = n
    simp
  · intro c hc
    obtain ⟨i, _, rfl⟩ := List.mem_map.mp hc
    exact List.get_mem _ _ _

/-- Witness for `randomString_length_alphabet` at a concrete source and
length. -/
theorem randomString_length_alphabet_witness :
    (RandomString (fun _ => 2 ^ 64 + 1) 3).length = 3 ∧
      randomStrSource.toList.length = 65 :=
  ⟨(randomString_length_alphabet (fun _ => 2 ^ 64 + 1) 3).1,
    (randomString_length_alphabet (fun _ => 2 ^ 64 + 1) 3).2.2.1⟩

/-- Membership is preserved from `dropWhile` back to the original list. -/
theorem mem_of_mem_dropWhile {α : Type} {p : α → Bool} {l : List α} {c : α}
    (h : c ∈ l.dropWhile p) : c ∈ l := by
  induction l with
  | nil => simpa using h
  | cons a l ih =>
    rw [List.dropWhile_cons] at h
    split at h
    · exact List.mem_cons_of_mem a (ih h)
    · exact h

/-- The head of a `dropWhile` result falsifies the predicate. -/
theorem head?_dropWhile_false {α : Type} {p : α → Bool} {l : List α} {c : α}
    (h : (l.dropWhile p).head? = some c) : p c = false := by
  induction l with
  | nil => simp at h
  | cons a l ih =>
    rw [List.dropWhile_cons] at h
    split at h
    · exact ih h
    · next hpa =>
        simp only [List.head?_cons, Option.some.injEq] at h
        subst h
        simpa using hpa

/-- `dropWhile` only removes a prefix, so a nonempty result keeps the last
element of the list. -/
theorem getLast?_dropWhile {α : Type} {p : α → Bool} {l : List α}
    (h : l.dropWhile p ≠ []) : (l.dropWhile p).getLast? = l.getLast? := by
  induction l with
  | nil => simp at h
  | cons a l ih =>
    rw [List.dropWhile_cons] at h
    rw [List.dropWhile_cons]
    split
    · next hpa =>
      rw [if_pos hpa] at h
      rw [ih h]
      cases l with
      | nil => simp at h
      | cons b m => rw [List.getLast?_cons_cons]
    · rfl

/-- Membership is preserved from `trimChar` back to the original list. -/
theorem mem_of_mem_trimChar {x c : Char} {l : List Char}
    (h : c ∈ trimChar x l) : c ∈ l := by
  unfold trimChar at h
  rw [List.mem_reverse] at h
  have h2 := mem_of_mem_dropWhile h
  rw [List.mem_reverse] at h2
  exact mem_of_mem_dropWhile h2

/-- The first character of a trimmed list is not the trimmed character. -/
theorem trimChar_head?_ne {x c : Char} {l : List Char}
    (h : (trimChar x l).head? = some c) : c ≠ x := by
  unfold trimChar at h
  rw [List.head?_reverse] at h
  have hne : (l.dropWhile (· == x)).reverse.dropWhile (· == x) ≠ [] := by
    intro hnil
    rw [hnil] at h
    simp at h
  rw [getLast?_dropWhile hne, List.getLast?_reverse] at h
  have := head?_dropWhile_false h
  simpa using this

/-- The last character of a trimmed list is not the trimmed character. -/
theorem trimChar_getLast?_ne {x c : Char} {l : List Char}
    (h : (trimChar x l).getLast? = some c) : c ≠ x := by
  unfold trimChar at h
  rw [List.getLast?_reverse] at h
  have := head?_dropWhile_false h
  simpa using this

/-- Every character emitted by the run-collapsing pass is either a slug
character coming from the input or a hyphen. -/
theorem collapseRunsAux_mem {l : List Char} {c : Char} :
    ∀ b, c ∈ collapseRunsAux b l → (isSlugChar c = true ∧ c ∈ l) ∨ c = '-' := by
  induction l with
  | nil => intro b h; simp [collapseRunsAux] at h
  | cons a l ih =>
    intro b h
    unfold collapseRunsAux at h
    split at h
    · next hslug =>
      rcases List.mem_cons.mp h with rfl | h2
      · exact Or.inl ⟨hslug, List.mem_cons_self _ _⟩
      · rcases ih false h2 with ⟨hc, hm⟩ | hc
        · exact Or.inl ⟨hc, List.mem_cons_of_mem a hm⟩
        · exact Or.inr hc
    · split at h
      · rcases ih true h with ⟨hc, hm⟩ | hc
        · exact Or.inl ⟨hc, List.mem_cons_of_mem a hm⟩
        · exact Or.inr hc
      · rcases List.mem_cons.mp h with rfl | h2
        · exact Or.inr rfl
        · rcases ih true h2 with ⟨hc, hm⟩ | hc
          · exact Or.inl ⟨hc, List.mem_cons_of_mem a hm⟩
          · exact Or.inr hc

/-- A list all of whose characters equal `x` trims to the empty list. -/
theorem trimChar_eq_nil {x : Char} {l : List Char}
    (h : ∀ c ∈ l, c = x) : trimChar x l = [] := by
  have hdrop : l.dropWhile (· == x) = [] := by
    rw [List.dropWhile_eq_nil_iff]
    intro c hc
    simpa using h c hc
  unfold trimChar
  rw [hdrop]
  simp

/-- C9: for every input string, `Slugify` either fails or returns a nonempty
string whose characters are ASCII lowercase letters, digits and hyphens,
neither starting nor ending with a hyphen; it fails whenever no character of
the input is alphanumeric after lowering (which covers empty and
whitespace-only inputs); and on the spec's concrete input it returns
`88golang-python-java-typescript` with no error. -/
theorem slugify_spec (s : String) :
    (∀ r, Slugify s = .ok r →
      r.toList ≠ [] ∧
      (∀ c ∈ r.toList, isSlugChar c = true ∨ c = '-') ∧
      (∀ c, r.toList.head? = some c → c ≠ '-') ∧
      (∀ c, r.toList.getLast? = some c → c ≠ '-')) ∧
    ((∀ c ∈ s.toList, isSlugChar c.toLower = false) →
      ∃ e, Slugify s = .error e) ∧
    Slugify "88GoLang!PyThon===Java?   TYPESCRIPT@  "
      = .ok "88golang-python-java-typescript" := by
  refine ⟨?_, ?_, rfl⟩
  · intro r h
    simp only [Slugify] at h
    split at h
    · exact absurd h (by simp)
    · split at h
      · exact absurd h (by simp)
      · next hlen =>
        simp only [Except.ok.injEq] at h
        subst h
        refine ⟨?_, ?_, ?_, ?_⟩
        · intro hnil
          have h0 : trimChar '-'
              (replaceRuns (List.map Char.toLower (trimChar ' ' s.toList))) = [] := hnil
          rw [h0] at hlen
          exact hlen rfl
        · intro c hc
          rcases collapseRunsAux_mem false (mem_of_mem_trimChar hc) with ⟨hs', _⟩ | hs'
          · exact Or.inl hs'
          · exact Or.inr hs'
        · intro c hc
          exact trimChar_head?_ne hc
        · intro c hc
          exact trimChar_getLast?_ne hc
  · intro hall
    simp only [Slugify]
    split
    · exact ⟨_, rfl⟩
    · have hnil : trimChar '-'
          (replaceRuns ((trimChar ' ' s.toList).map Char.toLower)) = [] := by
        apply trimChar_eq_nil
        intro c hc
        rcases collapseRunsAux_mem false hc with ⟨hslug, hmem⟩ | h
        · obtain ⟨d, hd, rfl⟩ := List.mem_map.mp hmem
          rw [hall d (mem_of_mem_trimChar hd)] at hslug
          exact absurd hslug (by simp)
        · exact h
      rw [hnil]
      exact ⟨_, rfl⟩

/-- Witness for `slugify_spec`: the input `"!!"` has no alphanumeric
character after lowering, and `Slugify` rejects it. -/
theorem slugify_spec_witness :
    (∀ c ∈ ("!!" : String).toList, isSlugChar c.toLower = false) ∧
      ∃ e, Slugify "!!" = .error e :=
  ⟨by decide, (slugify_spec "!!").2.1 (by decide)⟩

/-- C1: the claim that on a failing part `UploadFiles` returns the files
successfully processed so far alongside the error is refuted.  Processing
the single part `goodPart` succeeds and yields one file, but when the same
part is followed by `badPart` (whose sniffed type is not in the allow-list)
the function returns the error together with an empty (`nil`) slice: every
error path of the per-part closure executes `return nil, err`, overwriting
the captured `uploadedFiles` slice, even though the closure's own comment
says `In case of error, return what was successfully uploaded`.  Processing
does stop at the failing part and the first file stays on disk. -/
theorem uploadFiles_discards_partial_results :
    (UploadFiles detectDemo (fun _ => "r") false toolsDemo
        [goodPart] []).2.files.length = 1 ∧
    (UploadFiles detectDemo (fun _ => "r") false toolsDemo
        [goodPart, badPart] []).2.files = [] ∧
    (UploadFiles detectDemo (fun _ => "r") false toolsDemo
        [goodPart, badPart] []).2.err = some UploadErr.unsupportedType := by
  refine ⟨by decide, by decide, by decide⟩

/-- C2: the claim that every handle opened by `UploadFiles` is released on
every exit path is refuted.  The deferred call registered by
`var outfile *os.File; defer outfile.Close()` evaluates its receiver at the
`defer` statement, when `outfile` is still nil, so the destination file
created afterwards by `os.Create` is never closed: no execution path of the
per-part closure emits `closeOut`, yet every path reaching `os.Create`
successfully emits `createOut` (the opened part itself is closed
correctly). -/
theorem outfile_handle_never_closed (detect : List Nat → String) (t : Tools)
    (rn : Bool) (rname : String) (hdr : FileHeader)
    (acc : List UploadedFile) :
    HEvent.closeOut ∉ (processPart detect t rn rname hdr acc).trace ∧
    ((processPart detect t rn rname hdr acc).err = none →
      HEvent.createOut ∈ (processPart detect t rn rname hdr acc).trace) := by
  simp only [processPart]
  split_ifs <;> simp

/-- Witness for `outfile_handle_never_closed`: on the all-successful run over
`goodPart` the destination file is created and never closed. -/
theorem outfile_handle_never_closed_witness :
    (processPart detectDemo toolsDemo true "r" goodPart []).err = none ∧
    HEvent.closeOut ∉ (processPart detectDemo toolsDemo true "r" goodPart
      []).trace ∧
    HEvent.createOut ∈ (processPart detectDemo toolsDemo true "r" goodPart
      []).trace :=
  ⟨rfl,
    (outfile_handle_never_closed detectDemo toolsDemo true "r" goodPart []).1,
    (outfile_handle_never_closed detectDemo toolsDemo true "r" goodPart
      []).2 rfl⟩

/-- C3 counterexample: calling `UploadFiles` on a configuration whose
`MaxFileSize` is zero writes the 1 GiB default back into the configuration
struct (`t.MaxFileSize = 1024 * 1024 * 1024` in `upload_tools.go`), so the
field does not have the same value after the call as before it. -/
theorem uploadFiles_mutates_maxFileSize :
    toolsZero.MaxFileSize = 0 ∧
    (UploadFiles detectDemo (fun _ => "r") false toolsZero
        [] []).1.MaxFileSize = 1024 * 1024 * 1024 :=
  ⟨rfl, rfl⟩

/-- C3 (amended): `ReadJSON` never mutates the configuration (its default
byte limit is computed into a local), and `UploadFiles` never mutates
`AllowedFileTypes`, `MaxJSONSize` or `AllowUnknownFields`; it leaves the
configuration entirely unchanged whenever `MaxFileSize` is nonzero, but when
`MaxFileSize` is zero it writes the 1 GiB default back into the field. -/
theorem config_fields_frame (detect : List Nat → String)
    (randName : Nat → String) (pf : Bool) (t : Tools)
    (parts : List FileHeader) (rename : List Bool) (tj : Tools)
    (body : List JItem) :
    ((UploadFiles detect randName pf t parts rename).1.AllowedFileTypes
        = t.AllowedFileTypes ∧
      (UploadFiles detect randName pf t parts rename).1.MaxJSONSize
        = t.MaxJSONSize ∧
      (UploadFiles detect randName pf t parts rename).1.AllowUnknownFields
        = t.AllowUnknownFields ∧
      (t.MaxFileSize ≠ 0 →
        (UploadFiles detect randName pf t parts rename).1 = t) ∧
      (t.MaxFileSize = 0 →
        (UploadFiles detect randName pf t parts rename).1.MaxFileSize
          = 1024 * 1024 * 1024)) ∧
    (ReadJSON tj body).1 = tj := by
  refine ⟨?_, rfl⟩
  have hf : (UploadFiles detect randName pf t parts rename).1
      = if t.MaxFileSize = 0 then { t with MaxFileSize := 1024 * 1024 * 1024 }
        else t := rfl
  rw [hf]
  split
  · next h => exact ⟨rfl, rfl, rfl, fun hh => absurd h hh, fun _ => rfl⟩
  · next h => exact ⟨rfl, rfl, rfl, fun _ => rfl, fun hh => absurd hh h⟩

/-- Witness for `config_fields_frame` at a configuration with nonzero
`MaxFileSize`: the call leaves it untouched, and `ReadJSON` leaves its
configuration untouched. -/
theorem config_fields_frame_witness :
    (toolsDemo.MaxFileSize ≠ 0 ∧
      (UploadFiles detectDemo (fun _ => "r") false toolsDemo [] []).1
        = toolsDemo) ∧
    (ReadJSON toolsDemo []).1 = toolsDemo :=
  ⟨⟨by decide,
    (config_fields_frame detectDemo (fun _ => "r") false toolsDemo [] []
      toolsDemo []).1.2.2.2.1 (by decide)⟩,
    (config_fields_frame detectDemo (fun _ => "r") false toolsDemo [] []
      toolsDemo []).2⟩

set_option maxRecDepth 4096 in
/-- C6: the claim that content-type classification of a file shorter than
512 bytes is computed from exactly the file's own leading bytes, with no
padding, is refuted.  The byte count returned by `infile.Read(buff)` is
discarded, so for the two-byte file `[104, 105]` the classifier input is the
whole zero-initialised 512-byte buffer — the two file bytes followed by 510
zero bytes — not the two bytes themselves.  Moreover an empty file (shorter
than 512 bytes) is not classified at all: `Read` returns `io.EOF` and the
part fails with a read error. -/
theorem sniff_buffer_zero_padded :
    buff512 [104, 105] = [104, 105] ++ List.replicate 510 0 ∧
    buff512 [104, 105] ≠ [104, 105] ∧
    (buff512 [104, 105]).length = 512 ∧
    (processPart detectDemo toolsDemo true "r" emptyPart []).err
      = some UploadErr.readErr := by
  refine ⟨rfl, by decide, by decide, rfl⟩

/-- `allowedCheck` is false exactly when the allow-list is nonempty and no
entry matches under `strings.EqualFold`. -/
theorem allowedCheck_eq_false_iff (t : Tools) (ft : String) :
    allowedCheck t ft = false ↔
      t.AllowedFileTypes ≠ [] ∧
        ∀ f ∈ t.AllowedFileTypes, equalFold ft f = false := by
  unfold allowedCheck
  split
  · next h =>
    have hne : t.AllowedFileTypes ≠ [] := by
      intro hnil
      rw [hnil] at h
      simp at h
    simp only [List.any_eq_false, hne, ne_eq, not_false_eq_true, true_and]
    constructor
    · intro hall f hf
      simpa using hall f hf
    · intro hall f hf
      simpa using hall f hf
  · next h =>
    have hnil : t.AllowedFileTypes = [] := by
      cases hl : t.AllowedFileTypes with
      | nil => rfl
      | cons a l => rw [hl] at h; simp at h
    simp [hnil]

/-- C7: a part (whose stream opens and is nonempty, so that classification
happens) fails with the unsupported-file-type error if and only if the
allow-list is nonempty and the detected content type — computed by the
sniffer from the 512-byte buffer — matches no entry case-insensitively;
with an empty allow-list every detected type is accepted. -/
theorem unsupported_iff_not_allowed (detect : List Nat → String) (t : Tools)
    (rn : Bool) (rname : String) (hdr : FileHeader) (acc : List UploadedFile)
    (hopen : hdr.openFails = false) (hne : hdr.content ≠ []) :
    (processPart detect t rn rname hdr acc).err
        = some UploadErr.unsupportedType ↔
      t.AllowedFileTypes ≠ [] ∧
        ∀ f ∈ t.AllowedFileTypes,
          equalFold (detect (buff512 hdr.content)) f = false := by
  have hempty : hdr.content.isEmpty = false := by
    cases hc : hdr.content with
    | nil => exact absurd hc hne
    | cons a l => rfl
  rw [← allowedCheck_eq_false_iff]
  unfold processPart
  rw [hopen, hempty]
  simp only [Bool.false_eq_true, if_false]
  split
  · next hall =>
    simp only [Bool.not_eq_true'] at hall
    simp [hall]
  · next hall =>
    simp only [Bool.not_eq_true', Bool.not_eq_false] at hall
    rw [hall]
    split
    · simp
    · split
      · simp
      · split
        · simp
        · simp

/-- Witness for `unsupported_iff_not_allowed`: under the `image/png`
allow-list, `badPart` (sniffed as `text/plain`) is rejected with the
unsupported-file-type error. -/
theorem unsupported_iff_not_allowed_witness :
    badPart.openFails = false ∧ badPart.content ≠ [] ∧
    (processPart detectDemo toolsDemo true "r" badPart []).err
      = some UploadErr.unsupportedType :=
  ⟨rfl, by decide,
    (unsupported_iff_not_allowed detectDemo toolsDemo true "r" badPart []
      rfl (by decide)).mpr ⟨by decide, by decide⟩⟩

/-- C8: `ReadJSON` returns no error exactly when the body consists of one
JSON value that decodes cleanly into the target; and whenever a first value
decodes and anything at all remains in the stream (a second value, whether
it would decode or not, or trailing garbage), the call fails with the
multiple-JSON-values error, because the second `Decode` call returns
something other than `io.EOF`. -/
theorem readJSON_exactly_one_value (t : Tools) (body : List JItem) :
    ((ReadJSON t body).2 = none ↔ body = [JItem.value true]) ∧
    ∀ rest, body = JItem.value true :: rest → rest ≠ [] →
      (ReadJSON t body).2 = some JError.multipleJSONValues := by
  constructor
  · match body with
    | [] => simp [ReadJSON, decodeOne]
    | .garbage :: r => simp [ReadJSON, decodeOne]
    | .value false :: r => simp [ReadJSON, decodeOne]
    | .value true :: [] => simp [ReadJSON, decodeOne]
    | .value true :: .garbage :: r => simp [ReadJSON, decodeOne]
    | .value true :: .value false :: r => simp [ReadJSON, decodeOne]
    | .value true :: .value true :: r => simp [ReadJSON, decodeOne]
  · intro rest hb hne
    subst hb
    match rest, hne with
    | .garbage :: r, _ => simp [ReadJSON, decodeOne]
    | .value false :: r, _ => simp [ReadJSON, decodeOne]
    | .value true :: r, _ => simp [ReadJSON, decodeOne]

/-- Witness for `readJSON_exactly_one_value`: a body holding two JSON
values — the spec's `{"foo":"bar"}{"x":1}` example — is rejected with the
multiple-JSON-values error. -/
theorem readJSON_exactly_one_value_witness :
    (JItem.value true :: [JItem.value true]
        = JItem.value true :: [JItem.value true]) ∧
    ([JItem.value true] ≠ ([] : List JItem)) ∧
    (ReadJSON toolsZero [JItem.value true, JItem.value true]).2
      = some JError.multipleJSONValues :=
  ⟨rfl, by decide,
    (readJSON_exactly_one_value toolsZero
      [JItem.value true, JItem.value true]).2 [JItem.value true] rfl
      (by decide)⟩

/-- C10: whenever `WriteJSON` succeeds, the resulting response header map
has `application/json` as the value of `Content-Type`: the caller-supplied
headers are applied first and `w.Header().Set("Content-Type",
"application/json")` runs after them, overwriting any caller-supplied
`Content-Type` value. -/
theorem writeJSON_content_type (t : Tools) (ok : Bool) (m : Header)
    (hs : List Header) (m2 : Header)
    (h : WriteJSON t ok m hs = .ok m2) :
    headerGet m2 "Content-Type" = some ["application/json"] := by
  unfold WriteJSON at h
  split at h
  · exact absurd h (by simp)
  · simp only [Except.ok.injEq] at h
    subst h
    rfl

/-- Witness for `writeJSON_content_type`: a caller-supplied
`Content-Type: text/html` header is overwritten with `application/json`. -/
theorem writeJSON_content_type_witness :
    WriteJSON toolsZero true [] [[("Content-Type", ["text/html"])]]
        = .ok [("Content-Type", ["application/json"])] ∧
    headerGet [("Content-Type", ["application/json"])] "Content-Type"
      = some ["application/json"] :=
  ⟨rfl,
    writeJSON_content_type toolsZero true [] [[("Content-Type",
      ["text/html"])]] [("Content-Type", ["application/json"])] rfl⟩

end Toolkit
